import Mathlib

/-!
Verification of the ingestion-and-search core of tg-search.

Shallow embedding of `src/db.py` (the `Database` layer: FTS5 search, query
sanitization, statistics, bulk insert, clear) and `src/importer.py`
(the `LogImporter`: streamed line reading, hash-based deduplication, chunked
import). Machine-level collaborators (the SQLite FTS5 engine, the file
system) are passed in as explicit parameters, so every definition is
executable and every run of the embedded code is a pure value.
-/

/-- Python `str.strip()` on the character list: whitespace removed from both
ends (computable stand-in for `String.trim`, which does not reduce in the
kernel). -/
def stripChars (l : List Char) : List Char :=
  ((l.dropWhile Char.isWhitespace).reverse.dropWhile Char.isWhitespace).reverse

/-- Python `str.strip()`. -/
def pyStrip (s : String) : String := String.mk (stripChars s.toList)

/-- FTS5 reserved characters removed by the sanitizer: the `special_chars`
list of `Database._sanitize_fts_query` in src/db.py. -/
def special_chars : List Char := ['\"', '*', '^', '(', ')', '\x7b', '\x7d', '[', ']']

/-- Per-character effect of the replace loop of `_sanitize_fts_query`: each
reserved character is replaced by a space (replacing one single-character
pattern at a time is character-wise, so the loop is a map). -/
def neutralizeChar (c : Char) : Char := if c ∈ special_chars then ' ' else c

/-- The neutralized query text: every reserved character turned into a space. -/
def sanitizeChars (q : List Char) : List Char := q.map neutralizeChar

/-- Whitespace splitter (segments between whitespace characters, empty
segments included; Python `str.split()` is this followed by discarding the
empty segments, which `_sanitize_fts_query` does itself with its filter). -/
def splitWsAux : List Char → List Char → List (List Char)
  | [], acc => [acc.reverse]
  | c :: cs, acc =>
    if c.isWhitespace then acc.reverse :: splitWsAux cs []
    else splitWsAux cs (c :: acc)

/-- Segments of a character list split at whitespace. -/
def splitWs (l : List Char) : List (List Char) := splitWsAux l []

/-- The token list of `_sanitize_fts_query`: neutralize reserved characters,
split on whitespace, keep the non-empty pieces. (The per-token `strip` of
the source is the identity here because a segment contains no whitespace.) -/
def fts_tokens (query : String) : List String :=
  ((splitWs (sanitizeChars query.toList)).filter (· ≠ [])).map (fun t => String.mk t)

/-- Wrap a token as an FTS5 exact-phrase match, as the f-string of the source. -/
def quoteTok (t : String) : String := "\"" ++ t ++ "\""

/-- Embedding of `Database._sanitize_fts_query` (src/db.py): zero tokens give
the canonical empty phrase, one token an exact-phrase match, several tokens
an OR-joined disjunction of exact-phrase matches. -/
def Database.sanitize_fts_query (query : String) : String :=
  match fts_tokens query with
  | [] => "\"\""
  | [t] => quoteTok t
  | t :: ts => String.intercalate " OR " ((t :: ts).map quoteTok)

/-- Embedding of `Database.search` (src/db.py). The FTS5 engine is the
external collaborator: `engine e` is the rank-ordered list of rows matching
the MATCH expression `e`, or a syntax error raised by the engine. A blank
query short-circuits before the engine is consulted; otherwise the count
query reads the full match list and the page query applies OFFSET then
LIMIT to the same list. -/
def Database.search (engine : String → Except String (List String))
    (query : String) (limit offset : Nat) :
    Except String (List String × Nat) :=
  if pyStrip query = "" then .ok ([], 0)
  else
    match engine (Database.sanitize_fts_query query) with
    | .error e => .error e
    | .ok rows => .ok ((rows.drop offset).take limit, rows.length)

/-- Result shape of `Database.get_stats` (src/db.py): either the statistics
dictionary or the value-shaped error dictionary produced by the except branch. -/
inductive StatsResult where
  | ok (total_records : Nat) (db_size_mb : ℚ) (db_path : String)
  | err (error : String)
deriving DecidableEq

/-- Round half to even at integer precision, the tie-breaking rule of Python
`round`. -/
def roundHalfEven (x : ℚ) : ℤ :=
  if x - ⌊x⌋ < 1 / 2 then ⌊x⌋
  else if 1 / 2 < x - ⌊x⌋ then ⌊x⌋ + 1
  else if 2 ∣ ⌊x⌋ then ⌊x⌋ else ⌊x⌋ + 1

/-- Python `round(x, 2)` over the rationals (the binary floating-point
representation of the intermediate value is abstracted away; the quotient
`bytes / 2^20` and the rule "round half to even at two decimals" are kept). -/
def round2 (x : ℚ) : ℚ := (roundHalfEven (x * 100) : ℚ) / 100

/-- Embedding of `Database.get_stats` (src/db.py). `count` is the outcome of
the row-count query (any exception raised inside the `try` block is
abstracted into this parameter); `sizeBytes` is `os.path.getsize` of the
store, `0` when the file does not exist. On failure the except branch
returns the fixed error dictionary instead of raising. -/
def Database.get_stats (count : Except String Nat) (sizeBytes : Nat)
    (db_path : String) : StatsResult :=
  match count with
  | .error e => .err e
  | .ok n => .ok n (round2 ((sizeBytes : ℚ) / (1024 * 1024))) db_path

/-- Embedding of `Database.clear_all` (src/db.py) on the logical store state:
the rows of `logs_fts`, which `DELETE FROM logs_fts` empties. -/
def Database.clear_all (_db : List String) : List String := []

/-- Row count of the store: the result of `SELECT COUNT(*) FROM logs_fts`. -/
def rowCount (db : List String) : Nat := db.length

/-- Chunk decomposition `records[i : i + cs]` for `i = 0, cs, 2*cs, ...` of
`Database.bulk_insert`, indexed by fuel so that it is structurally recursive;
`chunksOf` supplies fuel `l.length`, which is enough whenever `0 < cs`. -/
def chunksFuel (cs : Nat) : Nat → List String → List (List String)
  | _, [] => []
  | 0, _ => []
  | f + 1, l => l.take cs :: chunksFuel cs f (l.drop cs)

/-- The chunk list of `Database.bulk_insert` for chunk size `cs`. -/
def chunksOf (cs : Nat) (l : List String) : List (List String) :=
  chunksFuel cs l.length l

/-- The chunk loop of `Database.bulk_insert` (src/db.py): one transaction per
chunk. `recFails r` abstracts "the INSERT of row `r` raises": when any row
of a chunk fails, that chunk's transaction is rolled back (the store is left
exactly as before the chunk) and the exception propagates; chunks committed
earlier stay committed. Returns the final rows and `total_inserted` or the
error. -/
def bulk_insert_go (recFails : String → Bool) :
    List (List String) → List String → Nat → List String × Except String Nat
  | [], db, total => (db, .ok total)
  | c :: rest, db, total =>
    if c.any recFails then (db, .error "insert failed")
    else bulk_insert_go recFails rest (db ++ c) (total + c.length)

/-- Embedding of `Database.bulk_insert` (src/db.py). -/
def Database.bulk_insert (recFails : String → Bool) (db : List String)
    (records : List String) (chunk_size : Nat) :
    List String × Except String Nat :=
  bulk_insert_go recFails (chunksOf chunk_size records) db 0

/-- The statistics dictionary of `LogImporter` (src/importer.py); the two
timestamps are not modelled, only the four counters the claims are about. -/
structure ImportStats where
  total_lines : Nat
  imported : Nat
  duplicates : Nat
  empty_lines : Nat
deriving DecidableEq

/-- The mutable state of a `LogImporter` object: its seen-hash set and its
statistics counters. -/
structure ImporterState where
  seen_hashes : List String
  stats : ImportStats
deriving DecidableEq

/-- State of a freshly constructed `LogImporter` (src/importer.py,
`LogImporter.__init__`): empty seen-hash set, zeroed counters. -/
def LogImporter.init : ImporterState := ⟨[], ⟨0, 0, 0, 0⟩⟩

/-- Embedding of `LogImporter.deduplicate_records` (src/importer.py). `h`
stands for the content hash `md5(record.encode()).hexdigest()`. First
occurrences are kept in order and their hashes added to the object's seen
set; records whose hash was already seen bump the `duplicates` counter. -/
def LogImporter.deduplicate_records (h : String → String) :
    List String → ImporterState → List String × ImporterState
  | [], st => ([], st)
  | r :: rs, st =>
    if h r ∈ st.seen_hashes then
      LogImporter.deduplicate_records h rs
        { st with stats := { st.stats with duplicates := st.stats.duplicates + 1 } }
    else
      (r :: (LogImporter.deduplicate_records h rs
          { st with seen_hashes := h r :: st.seen_hashes }).1,
       (LogImporter.deduplicate_records h rs
          { st with seen_hashes := h r :: st.seen_hashes }).2)

/-- One flush of `LogImporter.import_file`: optional deduplication of the
in-flight chunk, then — only when records survive — a `bulk_insert` call
(whose row inserts never fail here: the embedding covers the error-free
executions the claims quantify over) and an `imported` bump by the surviving
chunk's length. Returns the importer state, the store rows, and the call log
(the records of each `bulk_insert` call made, appended in order). -/
def flushChunk (h : String → String) (cs : Nat) (dedup : Bool)
    (chunk : List String) (st : ImporterState) (db : List String)
    (calls : List (List String)) :
    ImporterState × List String × List (List String) :=
  let p := if dedup then LogImporter.deduplicate_records h chunk st else (chunk, st)
  if p.1 = [] then (p.2, db, calls)
  else
    ({ p.2 with stats := { p.2.stats with imported := p.2.stats.imported + p.1.length } },
     (Database.bulk_insert (fun _ => false) db p.1 cs).1,
     calls ++ [p.1])

/-- The line loop of `LogImporter.import_file` fused with the lazily consumed
`read_file_generator` (src/importer.py): each raw line is stripped; blank
lines bump `empty_lines` and are skipped; other lines bump `total_lines`
and join the in-flight chunk, which is flushed when it reaches `cs` records;
the final chunk is flushed at end of input. -/
def importLoop (h : String → String) (cs : Nat) (dedup : Bool) :
    List String → ImporterState → List String → List String →
    List (List String) → ImporterState × List String × List (List String)
  | [], st, chunk, db, calls => flushChunk h cs dedup chunk st db calls
  | raw :: rest, st, chunk, db, calls =>
    let line := pyStrip raw
    if line = "" then
      importLoop h cs dedup rest
        { st with stats := { st.stats with empty_lines := st.stats.empty_lines + 1 } }
        chunk db calls
    else
      let st1 := { st with stats := { st.stats with total_lines := st.stats.total_lines + 1 } }
      let chunk1 := chunk ++ [line]
      if cs ≤ chunk1.length then
        let r := flushChunk h cs dedup chunk1 st1 db calls
        importLoop h cs dedup rest r.1 [] r.2.1 r.2.2
      else
        importLoop h cs dedup rest st1 chunk1 db calls

/-- Embedding of `LogImporter.import_file` (src/importer.py) over an existing
source, given as its list of raw lines; `h` is the content hash, `cs` the
importer's `chunk_size`, `st` the importer object's state at the call and
`db` the store rows. Returns the importer state at return, the store rows,
and the list of `bulk_insert` calls made. -/
def LogImporter.import_file (h : String → String) (cs : Nat) (dedup : Bool)
    (lines : List String) (st : ImporterState) (db : List String) :
    ImporterState × List String × List (List String) :=
  importLoop h cs dedup lines st [] db []

/-- The stripped non-blank lines of a source, in order: exactly the records
`read_file_generator` yields. -/
def nonblank_lines (lines : List String) : List String :=
  (lines.map pyStrip).filter (· ≠ "")

/-- The number of blank (whitespace-only) lines of a source: the lines
`read_file_generator` counts in `empty_lines` and skips. -/
def blank_count (lines : List String) : Nat :=
  ((lines.map pyStrip).filter (· = "")).length

/-- Modelled from the spec: the Store's query-language contract (§4.1, §4.4,
§6 — the full-text engine is an external collaborator, its code is not part
of src/). An expression is syntactically valid for the engine when it is
the canonical empty phrase, or a disjunction of non-empty double-quoted
phrases whose contents contain no reserved character and no whitespace. -/
def validFtsExpr (s : String) : Prop :=
  s = "\"\"" ∨
  ∃ ts : List String, ts ≠ [] ∧
    (∀ t ∈ ts, t ≠ "" ∧ ∀ c ∈ t.toList, c ∉ special_chars ∧ c.isWhitespace = false) ∧
    s = String.intercalate " OR " (ts.map quoteTok)

/-- Twenty-five distinct non-empty lines, the concrete source of C5. -/
def demo25 : List String :=
  ["r01", "r02", "r03", "r04", "r05", "r06", "r07", "r08", "r09", "r10",
   "r11", "r12", "r13", "r14", "r15", "r16", "r17", "r18", "r19", "r20",
   "r21", "r22", "r23", "r24", "r25"]

/-! Sanitizer lemmas. -/

/-- Characters of the whitespace-split segments come from the accumulator or
are non-whitespace characters of the input. -/
theorem splitWsAux_chars :
    ∀ (l acc : List Char), ∀ w ∈ splitWsAux l acc, ∀ c ∈ w,
      c ∈ acc ∨ (c ∈ l ∧ c.isWhitespace = false)
  | [], acc => by
    intro w hw c hc
    simp only [splitWsAux, List.mem_singleton] at hw
    subst hw
    exact Or.inl (List.mem_reverse.mp hc)
  | a :: l, acc => by
    intro w hw c hc
    simp only [splitWsAux] at hw
    by_cases ha : a.isWhitespace
    · rw [if_pos ha] at hw
      rcases List.mem_cons.mp hw with hw | hw
      · subst hw
        exact Or.inl (List.mem_reverse.mp hc)
      · rcases splitWsAux_chars l [] w hw c hc with h | h
        · exact absurd h (List.not_mem_nil c)
        · exact Or.inr ⟨List.mem_cons_of_mem a h.1, h.2⟩
    · rw [if_neg ha] at hw
      rcases splitWsAux_chars l (a :: acc) w hw c hc with h | h
      · rcases List.mem_cons.mp h with h | h
        · subst h
          exact Or.inr ⟨List.mem_cons_self c l, Bool.eq_false_iff.mpr ha⟩
        · exact Or.inl h
      · exact Or.inr ⟨List.mem_cons_of_mem a h.1, h.2⟩

/-- Every token produced by the sanitizer is non-empty and free of reserved
characters, whitespace and quotes. -/
theorem fts_tokens_safe (query : String) :
    ∀ t ∈ fts_tokens query, t ≠ "" ∧
      ∀ c ∈ t.toList, c ∉ special_chars ∧ c.isWhitespace = false := by
  intro t ht
  simp only [fts_tokens, List.mem_map, List.mem_filter] at ht
  obtain ⟨w, ⟨hwmem, hwne⟩, rfl⟩ := ht
  have hwne : w ≠ [] := by simpa using hwne
  constructor
  · simpa [String.ext_iff] using hwne
  · intro c hc
    have hc : c ∈ w := hc
    rcases splitWsAux_chars _ [] w hwmem c hc with h | h
    · exact absurd h (List.not_mem_nil c)
    · obtain ⟨hmem, hws⟩ := h
      simp only [sanitizeChars, List.mem_map] at hmem
      obtain ⟨d, _, rfl⟩ := hmem
      unfold neutralizeChar at hws ⊢
      by_cases hd : d ∈ special_chars
      · rw [if_pos hd] at hws
        simp at hws
      · rw [if_neg hd] at hws ⊢
        exact ⟨hd, hws⟩

/-- The sanitizer only ever emits syntactically valid match expressions. -/
theorem sanitize_always_valid (query : String) :
    validFtsExpr (Database.sanitize_fts_query query) := by
  have hsafe := fts_tokens_safe query
  rcases h : fts_tokens query with _ | ⟨t, (_ | ⟨u, ts⟩)⟩
  · left
    simp [Database.sanitize_fts_query, h]
  · right
    refine ⟨[t], by simp, ?_, ?_⟩
    · intro v hv
      rw [List.mem_singleton] at hv
      subst hv
      exact hsafe _ (by rw [h]; exact List.mem_singleton_self _)
    · simp [Database.sanitize_fts_query, h, String.intercalate, String.intercalate.go,
        quoteTok]
  · right
    refine ⟨t :: u :: ts, by simp, ?_, ?_⟩
    · intro v hv
      exact hsafe v (by rw [h]; exact hv)
    · simp [Database.sanitize_fts_query, h]

/-- C2: for every input string the Query Sanitizer strips the reserved
control characters, splits the cleaned text on whitespace discarding empty
tokens, and returns the canonical match-nothing expression when no token
remains, a single exact-phrase wrap when exactly one token remains, and an
OR-joined disjunction of exact-phrase matches when several tokens remain. -/
theorem sanitizer_token_cases (query : String) :
    (fts_tokens query = [] → Database.sanitize_fts_query query = "\"\"") ∧
    (∀ t, fts_tokens query = [t] → Database.sanitize_fts_query query = quoteTok t) ∧
    (2 ≤ (fts_tokens query).length →
      Database.sanitize_fts_query query
        = String.intercalate " OR " ((fts_tokens query).map quoteTok)) := by
  refine ⟨fun h => by simp [Database.sanitize_fts_query, h],
          fun t h => by simp [Database.sanitize_fts_query, h],
          fun h2 => ?_⟩
  rcases h : fts_tokens query with _ | ⟨t, (_ | ⟨u, ts⟩)⟩
  · rw [h] at h2
    simp at h2
  · rw [h] at h2
    simp at h2
  · simp [Database.sanitize_fts_query, h]

/-- Witness for `sanitizer_token_cases`: the query with reserved characters
from the spec splits into three tokens and is OR-joined. -/
theorem sanitizer_token_cases_witness :
    fts_tokens "a*b\"c" = ["a", "b", "c"] ∧
    Database.sanitize_fts_query "a*b\"c"
      = String.intercalate " OR " ((fts_tokens "a*b\"c").map quoteTok) :=
  ⟨by decide, (sanitizer_token_cases "a*b\"c").2.2 (by decide)⟩

/-- C7: a query containing reserved control characters of the engine's query
language never raises QueryError: the sanitized expression is always
syntactically valid, so for every engine honouring the contract (valid
expressions are accepted) the error branch of `Database.search` is
unreachable. -/
theorem search_never_query_error (engine : String → Except String (List String))
    (hengine : ∀ s, validFtsExpr s → ∃ rows, engine s = .ok rows)
    (query : String) (limit offset : Nat) :
    validFtsExpr (Database.sanitize_fts_query query) ∧
    ∃ v, Database.search engine query limit offset = .ok v := by
  refine ⟨sanitize_always_valid query, ?_⟩
  by_cases hq : pyStrip query = ""
  · exact ⟨([], 0), by simp [Database.search, hq]⟩
  · obtain ⟨rows, hrows⟩ := hengine _ (sanitize_always_valid query)
    exact ⟨((rows.drop offset).take limit, rows.length),
      by simp [Database.search, hq, hrows]⟩

/-- Witness for `search_never_query_error` at the spec's example query. -/
theorem search_never_query_error_witness :
    validFtsExpr (Database.sanitize_fts_query "a*b\"c") ∧
    ∃ v, Database.search (fun _ => .ok []) "a*b\"c" 30 0 = .ok v :=
  search_never_query_error (fun _ => .ok []) (fun _ _ => ⟨[], rfl⟩) "a*b\"c" 30 0

/-- C4: Search on an empty or whitespace-only query returns the empty page
and totalMatches 0 — for every engine (so without consulting it) and
without error. -/
theorem search_blank_query (engine : String → Except String (List String))
    (query : String) (limit offset : Nat) (hq : pyStrip query = "") :
    Database.search engine query limit offset = .ok ([], 0) := by
  simp [Database.search, hq]

/-- Witness for `search_blank_query` on the spec's two example queries, with
an engine that would fail if it were ever consulted. -/
theorem search_blank_query_witness :
    pyStrip "   " = "" ∧
    Database.search (fun _ => .error "never") "   " 30 0 = .ok ([], 0) ∧
    Database.search (fun _ => .error "never") "" 7 3 = .ok ([], 0) :=
  ⟨by decide, search_blank_query _ "   " 30 0 (by decide),
   search_blank_query _ "" 7 3 (by decide)⟩

/-- C6: for every non-blank query, totalMatches is the length of the full
match list — the same value for every limit and offset — while the returned
page is the OFFSET/LIMIT window of that list and holds at most limit
records. -/
theorem search_total_independent (engine : String → Except String (List String))
    (query : String) (rows : List String) (hq : pyStrip query ≠ "")
    (hrows : engine (Database.sanitize_fts_query query) = .ok rows)
    (limit offset : Nat) :
    Database.search engine query limit offset
      = .ok ((rows.drop offset).take limit, rows.length) ∧
    ((rows.drop offset).take limit).length ≤ limit := by
  constructor
  · simp [Database.search, hq, hrows]
  · simp

/-- Witness for `search_total_independent`: three matches, pages of size two
at offsets zero and one, totalMatches three both times. -/
theorem search_total_independent_witness :
    pyStrip "q" ≠ "" ∧
    Database.search (fun _ => .ok ["r1", "r2", "r3"]) "q" 2 1
      = .ok (["r2", "r3"], 3) ∧
    Database.search (fun _ => .ok ["r1", "r2", "r3"]) "q" 2 0
      = .ok (["r1", "r2"], 3) :=
  ⟨by decide,
   (search_total_independent _ "q" ["r1", "r2", "r3"] (by decide) rfl 2 1).1,
   (search_total_independent _ "q" ["r1", "r2", "r3"] (by decide) rfl 2 0).1⟩

/-- C8: the Stats Reporter never raises — it is a total function into the
value-shaped `StatsResult`: on storage failure it returns the
`{error: message}` dictionary, and on success the exact stored-record count
together with the on-disk size rounded to megabytes. -/
theorem get_stats_shape (count : Except String Nat) (sizeBytes : Nat) (path : String) :
    (∀ e, count = .error e → Database.get_stats count sizeBytes path = .err e) ∧
    (∀ n, count = .ok n →
      Database.get_stats count sizeBytes path
        = .ok n (round2 ((sizeBytes : ℚ) / (1024 * 1024))) path) ∧
    (∀ db : List String,
      Database.get_stats (.ok (rowCount db)) sizeBytes path
        = .ok db.length (round2 ((sizeBytes : ℚ) / (1024 * 1024))) path) := by
  refine ⟨fun e he => ?_, fun n hn => ?_, fun db => rfl⟩
  · rw [he]
    rfl
  · rw [hn]
    rfl

/-- Witness for `get_stats_shape`: a failing count query yields the error
dictionary, a successful one the exact count and the rounded size (three
mebibytes round to 3.0). -/
theorem get_stats_shape_witness :
    Database.get_stats (.error "disk gone") 0 "logs_database.db" = .err "disk gone" ∧
    Database.get_stats (.ok 5) 3145728 "logs_database.db"
      = .ok 5 (round2 ((3145728 : ℚ) / (1024 * 1024))) "logs_database.db" :=
  ⟨(get_stats_shape (.error "disk gone") 0 "logs_database.db").1 "disk gone" rfl,
   (get_stats_shape (.ok 5) 3145728 "logs_database.db").2.1 5 rfl⟩

/-- C9: ClearAll followed immediately by Stats (no writes in between) reports
recordCount 0, whatever the store held before. -/
theorem clear_then_stats_zero (db : List String) (sizeBytes : Nat) (path : String) :
    Database.get_stats (.ok (rowCount (Database.clear_all db))) sizeBytes path
      = .ok 0 (round2 ((sizeBytes : ℚ) / (1024 * 1024))) path := rfl

/-! Bulk-insert lemmas. -/

/-- Every chunk of the decomposition is no longer than the chunk size. -/
theorem chunksFuel_mem_length (cs : Nat) :
    ∀ (f : Nat) (l : List String), ∀ c ∈ chunksFuel cs f l, c.length ≤ cs
  | 0, l => by cases l <;> simp [chunksFuel]
  | f + 1, l => by
    cases l with
    | nil => simp [chunksFuel]
    | cons a as =>
      intro c hc
      rcases List.mem_cons.mp hc with h | h
      · subst h
        rw [List.length_take]
        exact Nat.min_le_left _ _
      · exact chunksFuel_mem_length cs f _ c h

/-- With enough fuel and a positive chunk size, the chunks concatenate back
to the record list. -/
theorem chunksFuel_join (cs : Nat) (hcs : 0 < cs) :
    ∀ (f : Nat) (l : List String), l.length ≤ f → (chunksFuel cs f l).flatten = l
  | 0, l => by
    intro hlen
    rw [List.length_eq_zero.mp (Nat.le_zero.mp hlen)]
    simp [chunksFuel]
  | f + 1, l => by
    cases l with
    | nil => simp [chunksFuel]
    | cons a as =>
      intro hlen
      show ((a :: as).take cs :: chunksFuel cs f ((a :: as).drop cs)).flatten = a :: as
      rw [List.flatten_cons,
        chunksFuel_join cs hcs f _ (by simp at hlen ⊢; omega),
        List.take_append_drop]

/-- The chunks of `chunksOf` concatenate back to the record list. -/
theorem chunksOf_join (cs : Nat) (hcs : 0 < cs) (l : List String) :
    (chunksOf cs l).flatten = l :=
  chunksFuel_join cs hcs l.length l le_rfl

/-- When no chunk fails, the chunk loop appends every chunk in order and
counts every record. -/
theorem bulk_insert_go_ok (recFails : String → Bool) :
    ∀ (chs : List (List String)) (db : List String) (total : Nat),
      (∀ c ∈ chs, c.any recFails = false) →
      bulk_insert_go recFails chs db total
        = (db ++ chs.flatten, .ok (total + chs.flatten.length))
  | [], db, total => by simp [bulk_insert_go]
  | c :: rest, db, total => by
    intro hall
    have hc : c.any recFails = false := hall c (List.mem_cons_self c rest)
    simp only [bulk_insert_go, hc, Bool.false_eq_true, if_false]
    rw [bulk_insert_go_ok recFails rest (db ++ c) (total + c.length)
      (fun d hd => hall d (List.mem_cons_of_mem c hd))]
    simp [List.flatten_cons, List.append_assoc, Nat.add_assoc]

/-- When the chunk loop fails it failed at the first failing chunk: the
chunks before it all passed and are committed in order, the failing chunk's
records are absent, and the error is the propagated exception. -/
theorem bulk_insert_go_err (recFails : String → Bool) :
    ∀ (chs : List (List String)) (db : List String) (total : Nat) (e : String),
      (bulk_insert_go recFails chs db total).2 = .error e →
      ∃ pre c post, chs = pre ++ c :: post ∧
        (∀ c2 ∈ pre, c2.any recFails = false) ∧ c.any recFails = true ∧
        (bulk_insert_go recFails chs db total).1 = db ++ pre.flatten
  | [], db, total => by
    intro e h
    simp [bulk_insert_go] at h
  | c :: rest, db, total => by
    intro e h
    by_cases hc : c.any recFails
    · exact ⟨[], c, rest, rfl, by simp, hc, by simp [bulk_insert_go, hc]⟩
    · rw [Bool.not_eq_true] at hc
      simp only [bulk_insert_go, hc, Bool.false_eq_true, if_false] at h ⊢
      obtain ⟨pre, c2, post, heq, hpre, hc2, hfst⟩ :=
        bulk_insert_go_err recFails rest (db ++ c) (total + c.length) e h
      refine ⟨c :: pre, c2, post, by rw [heq]; rfl, ?_, hc2, ?_⟩
      · intro d hd
        rcases List.mem_cons.mp hd with h3 | h3
        · subst h3
          exact hc
        · exact hpre d h3
      · rw [hfst]
        simp [List.flatten_cons, List.append_assoc]

/-- C3: for every record sequence and positive batch size, `bulk_insert`
inserts the records in groups no larger than the batch size, each group in
one transaction: when no record fails every group commits and every record
is persisted in order; when a group fails, no record of that group is
persisted, the error propagates, and exactly the groups before it remain
committed. -/
theorem bulk_insert_transactional (recFails : String → Bool) (db records : List String)
    (chunk_size : Nat) (hcs : 0 < chunk_size) :
    (∀ c ∈ chunksOf chunk_size records, c.length ≤ chunk_size) ∧
    ((∀ r ∈ records, recFails r = false) →
      Database.bulk_insert recFails db records chunk_size
        = (db ++ records, .ok records.length)) ∧
    (∀ e, (Database.bulk_insert recFails db records chunk_size).2 = .error e →
      ∃ pre c post, chunksOf chunk_size records = pre ++ c :: post ∧
        (∀ c2 ∈ pre, c2.any recFails = false) ∧ c.any recFails = true ∧
        (Database.bulk_insert recFails db records chunk_size).1 = db ++ pre.flatten) := by
  refine ⟨fun c hc => chunksFuel_mem_length chunk_size _ _ c hc, fun hall => ?_,
    fun e he => bulk_insert_go_err recFails _ db 0 e he⟩
  unfold Database.bulk_insert
  rw [bulk_insert_go_ok recFails _ db 0 ?_, chunksOf_join chunk_size hcs records,
    Nat.zero_add]
  intro c hc
  rw [List.any_eq_false]
  intro r hr
  have : r ∈ (chunksOf chunk_size records).flatten := List.mem_flatten.mpr ⟨c, hc, hr⟩
  rw [chunksOf_join chunk_size hcs records] at this
  simp [hall r this]

/-- Witness for `bulk_insert_transactional`: with batch size one and a record
whose insert fails, the store keeps exactly the groups committed before the
failure and the call errors. -/
theorem bulk_insert_transactional_witness :
    0 < 1 ∧
    Database.bulk_insert (fun r => r == "bad") ["x"] ["a", "bad", "c"] 1
      = (["x", "a"], .error "insert failed") ∧
    (∀ c ∈ chunksOf 1 ["a", "bad", "c"], c.length ≤ 1) :=
  ⟨Nat.one_pos, rfl,
   (bulk_insert_transactional (fun r => r == "bad") ["x"] ["a", "bad", "c"] 1
      Nat.one_pos).1⟩

/-- A `bulk_insert` whose row inserts never fail appends all records and
reports their count (the instance the import loop runs under in the
error-free executions modelled here). -/
theorem bulk_insert_noFail (db rs : List String) (cs : Nat) (hcs : 0 < cs) :
    Database.bulk_insert (fun _ => false) db rs cs = (db ++ rs, .ok rs.length) := by
  unfold Database.bulk_insert
  rw [bulk_insert_go_ok _ _ db 0 (fun c _ => by simp), chunksOf_join cs hcs rs,
    Nat.zero_add]

/-! Importer lemmas. -/

/-- Deduplication leaves every counter except `duplicates` alone; the
surviving records are among the input records and together with the
duplicates bump they account for every input record. -/
theorem deduplicate_records_counts (h : String → String) :
    ∀ (rs : List String) (st : ImporterState),
      (LogImporter.deduplicate_records h rs st).2.stats.total_lines
          = st.stats.total_lines ∧
      (LogImporter.deduplicate_records h rs st).2.stats.empty_lines
          = st.stats.empty_lines ∧
      (LogImporter.deduplicate_records h rs st).2.stats.imported
          = st.stats.imported ∧
      (LogImporter.deduplicate_records h rs st).2.stats.duplicates
          + (LogImporter.deduplicate_records h rs st).1.length
        = st.stats.duplicates + rs.length ∧
      (∀ x ∈ (LogImporter.deduplicate_records h rs st).1, x ∈ rs)
  | [], st => by simp [LogImporter.deduplicate_records]
  | r :: rs, st => by
    by_cases hmem : h r ∈ st.seen_hashes
    · obtain ⟨h1, h2, h3, h4, h5⟩ := deduplicate_records_counts h rs
        { st with stats := { st.stats with duplicates := st.stats.duplicates + 1 } }
      simp only [LogImporter.deduplicate_records, if_pos hmem]
      refine ⟨h1, h2, h3, by simp at h4 ⊢; omega, fun x hx => List.mem_cons_of_mem r (h5 x hx)⟩
    · obtain ⟨h1, h2, h3, h4, h5⟩ := deduplicate_records_counts h rs
        { st with seen_hashes := h r :: st.seen_hashes }
      simp only [LogImporter.deduplicate_records, if_neg hmem]
      refine ⟨h1, h2, h3, by simp at h4 ⊢; omega, fun x hx => ?_⟩
      rcases List.mem_cons.mp hx with hx | hx
      · exact hx ▸ List.mem_cons_self r rs
      · exact List.mem_cons_of_mem r (h5 x hx)

/-- On records with pairwise distinct hashes, none already seen,
deduplication keeps every record in order, bumps nothing, and pushes the
hashes onto the seen set. -/
theorem deduplicate_records_unique (h : String → String) :
    ∀ (rs : List String) (st : ImporterState),
      (rs.map h).Nodup → (∀ x ∈ rs, h x ∉ st.seen_hashes) →
      LogImporter.deduplicate_records h rs st
        = (rs, { st with seen_hashes := (rs.map h).reverse ++ st.seen_hashes })
  | [], st => by
    intro _ _
    simp [LogImporter.deduplicate_records]
  | r :: rs, st => by
    intro hnd hdis
    have hr : h r ∉ st.seen_hashes := hdis r (List.mem_cons_self r rs)
    simp only [List.map_cons, List.nodup_cons, List.mem_map] at hnd
    simp only [LogImporter.deduplicate_records, if_neg hr]
    rw [deduplicate_records_unique h rs { st with seen_hashes := h r :: st.seen_hashes }
      hnd.2 ?_]
    · simp [List.reverse_cons, List.append_assoc]
    · intro x hx
      simp only [List.mem_cons, not_or]
      exact ⟨fun hEq => hnd.1 ⟨x, hx, hEq⟩, hdis x (List.mem_cons_of_mem r hx)⟩

/-- A flush never touches `total_lines` or `empty_lines`; it moves the whole
in-flight chunk into `imported` plus `duplicates`; and without deduplication
`duplicates` is untouched. -/
theorem flushChunk_stats (h : String → String) (cs : Nat) (dedup : Bool)
    (chunk : List String) (st : ImporterState) (db : List String)
    (calls : List (List String)) :
    (flushChunk h cs dedup chunk st db calls).1.stats.total_lines
        = st.stats.total_lines ∧
    (flushChunk h cs dedup chunk st db calls).1.stats.empty_lines
        = st.stats.empty_lines ∧
    (flushChunk h cs dedup chunk st db calls).1.stats.imported
        + (flushChunk h cs dedup chunk st db calls).1.stats.duplicates
      = st.stats.imported + st.stats.duplicates + chunk.length ∧
    (dedup = false →
      (flushChunk h cs dedup chunk st db calls).1.stats.duplicates
        = st.stats.duplicates) := by
  cases dedup with
  | false =>
    by_cases hc : chunk = []
    · subst hc
      simp [flushChunk]
    · simp [flushChunk, hc]
      omega
  | true =>
    obtain ⟨e1, e2, e3, e4, _⟩ := deduplicate_records_counts h chunk st
    by_cases hq : (LogImporter.deduplicate_records h chunk st).1 = []
    · rw [hq] at e4
      simp only [flushChunk, if_true, hq, List.length_nil] at *
      refine ⟨e1, e2, by omega, fun hf => by cases hf⟩
    · simp only [flushChunk, if_true, if_neg hq]
      refine ⟨e1, e2, by omega, fun hf => by cases hf⟩

/-- Any call a flush adds consists of records of the in-flight chunk. -/
theorem flushChunk_calls (h : String → String) (cs : Nat) (dedup : Bool)
    (chunk : List String) (st : ImporterState) (db : List String)
    (calls : List (List String)) :
    ∀ c ∈ (flushChunk h cs dedup chunk st db calls).2.2,
      c ∈ calls ∨ ∀ r ∈ c, r ∈ chunk := by
  intro c hcall
  cases dedup with
  | false =>
    by_cases hc : chunk = []
    · subst hc
      left
      simpa [flushChunk] using hcall
    · simp [flushChunk, hc] at hcall
      rcases hcall with hcall | hcall
      · exact Or.inl hcall
      · exact Or.inr (fun r hr => hcall ▸ hr)
  | true =>
    obtain ⟨_, _, _, _, hsub⟩ := deduplicate_records_counts h chunk st
    by_cases hq : (LogImporter.deduplicate_records h chunk st).1 = []
    · left
      simpa [flushChunk, hq] using hcall
    · simp [flushChunk, hq] at hcall
      rcases hcall with hcall | hcall
      · exact Or.inl hcall
      · exact Or.inr (fun r hr => hsub r (hcall ▸ hr))

/-- Flushing a chunk of distinct, unseen hashes under deduplication keeps
every record: the hashes go onto the seen set, `imported` grows by the whole
chunk, the store receives the chunk, and the call log records it. -/
theorem flushChunk_unique (h : String → String) (cs : Nat) (hcs : 0 < cs)
    (chunk : List String) (st : ImporterState) (db : List String)
    (calls : List (List String))
    (hnd : (chunk.map h).Nodup) (hdis : ∀ x ∈ chunk, h x ∉ st.seen_hashes) :
    flushChunk h cs true chunk st db calls
      = ({ seen_hashes := (chunk.map h).reverse ++ st.seen_hashes,
           stats := { st.stats with imported := st.stats.imported + chunk.length } },
         db ++ chunk,
         if chunk = [] then calls else calls ++ [chunk]) := by
  by_cases hc : chunk = []
  · subst hc
    simp [flushChunk, LogImporter.deduplicate_records]
  · simp only [flushChunk, if_true]
    rw [deduplicate_records_unique h chunk st hnd hdis]
    simp [hc, bulk_insert_noFail db chunk cs hcs]

/-- Unfolding of the import loop on an exhausted source. -/
theorem importLoop_nil (h : String → String) (cs : Nat) (dedup : Bool)
    (st : ImporterState) (chunk db : List String) (calls : List (List String)) :
    importLoop h cs dedup [] st chunk db calls
      = flushChunk h cs dedup chunk st db calls := rfl

/-- Unfolding of the import loop on one more raw line. -/
theorem importLoop_cons (h : String → String) (cs : Nat) (dedup : Bool)
    (raw : String) (rest : List String) (st : ImporterState)
    (chunk db : List String) (calls : List (List String)) :
    importLoop h cs dedup (raw :: rest) st chunk db calls
      = if pyStrip raw = "" then
          importLoop h cs dedup rest
            { st with stats := { st.stats with empty_lines := st.stats.empty_lines + 1 } }
            chunk db calls
        else if cs ≤ (chunk ++ [pyStrip raw]).length then
          importLoop h cs dedup rest
            (flushChunk h cs dedup (chunk ++ [pyStrip raw])
              { st with stats := { st.stats with total_lines := st.stats.total_lines + 1 } }
              db calls).1
            []
            (flushChunk h cs dedup (chunk ++ [pyStrip raw])
              { st with stats := { st.stats with total_lines := st.stats.total_lines + 1 } }
              db calls).2.1
            (flushChunk h cs dedup (chunk ++ [pyStrip raw])
              { st with stats := { st.stats with total_lines := st.stats.total_lines + 1 } }
              db calls).2.2
        else
          importLoop h cs dedup rest
            { st with stats := { st.stats with total_lines := st.stats.total_lines + 1 } }
            (chunk ++ [pyStrip raw]) db calls := rfl

/-- `nonblank_lines` and `blank_count` unfolded one line at a time. -/
theorem nonblank_cons_blank (raw : String) (rest : List String)
    (hline : pyStrip raw = "") :
    nonblank_lines (raw :: rest) = nonblank_lines rest := by
  simp [nonblank_lines, hline]

theorem nonblank_cons_nonblank (raw : String) (rest : List String)
    (hline : pyStrip raw ≠ "") :
    nonblank_lines (raw :: rest) = pyStrip raw :: nonblank_lines rest := by
  simp [nonblank_lines, hline]

theorem blank_count_cons_blank (raw : String) (rest : List String)
    (hline : pyStrip raw = "") :
    blank_count (raw :: rest) = blank_count rest + 1 := by
  simp [blank_count, hline]

theorem blank_count_cons_nonblank (raw : String) (rest : List String)
    (hline : pyStrip raw ≠ "") :
    blank_count (raw :: rest) = blank_count rest := by
  simp [blank_count, hline]

/-- A flush restores the balance invariant with an empty in-flight chunk. -/
theorem flushChunk_balance (h : String → String) (cs : Nat) (dedup : Bool)
    (chunk : List String) (st : ImporterState) (db : List String)
    (calls : List (List String))
    (hbal : st.stats.total_lines
      = st.stats.imported + st.stats.duplicates + chunk.length) :
    (flushChunk h cs dedup chunk st db calls).1.stats.total_lines
      = (flushChunk h cs dedup chunk st db calls).1.stats.imported
        + (flushChunk h cs dedup chunk st db calls).1.stats.duplicates
        + ([] : List String).length := by
  obtain ⟨e1, _, e3, _⟩ := flushChunk_stats h cs dedup chunk st db calls
  simp only [List.length_nil]
  omega

/-- Loop invariant behind C10: when the counted non-blank lines at entry are
exactly the classified ones plus the in-flight chunk, at return they are
exactly the classified ones. -/
theorem importLoop_balance (h : String → String) (cs : Nat) (dedup : Bool) :
    ∀ (lines : List String) (st : ImporterState) (chunk db : List String)
      (calls : List (List String)),
      st.stats.total_lines
          = st.stats.imported + st.stats.duplicates + chunk.length →
      (importLoop h cs dedup lines st chunk db calls).1.stats.total_lines
        = (importLoop h cs dedup lines st chunk db calls).1.stats.imported
          + (importLoop h cs dedup lines st chunk db calls).1.stats.duplicates
  | [], st, chunk, db, calls => by
    intro hbal
    obtain ⟨e1, _, e3, _⟩ := flushChunk_stats h cs dedup chunk st db calls
    rw [importLoop_nil]
    omega
  | raw :: rest, st, chunk, db, calls => by
    intro hbal
    rw [importLoop_cons]
    by_cases hline : pyStrip raw = ""
    · rw [if_pos hline]
      exact importLoop_balance h cs dedup rest _ chunk db calls hbal
    · rw [if_neg hline]
      by_cases hfull : cs ≤ (chunk ++ [pyStrip raw]).length
      · rw [if_pos hfull]
        apply importLoop_balance h cs dedup rest _ [] _ _
        apply flushChunk_balance
        show st.stats.total_lines + 1
          = st.stats.imported + st.stats.duplicates + (chunk ++ [pyStrip raw]).length
        simp only [List.length_append, List.length_cons, List.length_nil]
        omega
      · rw [if_neg hfull]
        apply importLoop_balance h cs dedup rest _ _ db calls
        simp only [List.length_append, List.length_cons, List.length_nil]
        show st.stats.total_lines + 1
          = st.stats.imported + st.stats.duplicates + (chunk.length + 1)
        omega

/-- The loop adds every blank line to `empty_lines` and every non-blank line
to `total_lines`. -/
theorem importLoop_counts (h : String → String) (cs : Nat) (dedup : Bool) :
    ∀ (lines : List String) (st : ImporterState) (chunk db : List String)
      (calls : List (List String)),
      (importLoop h cs dedup lines st chunk db calls).1.stats.empty_lines
          = st.stats.empty_lines + blank_count lines ∧
      (importLoop h cs dedup lines st chunk db calls).1.stats.total_lines
          = st.stats.total_lines + (nonblank_lines lines).length
  | [], st, chunk, db, calls => by
    obtain ⟨e1, e2, _, _⟩ := flushChunk_stats h cs dedup chunk st db calls
    rw [importLoop_nil]
    constructor
    · rw [e2]
      simp [blank_count]
    · rw [e1]
      simp [nonblank_lines]
  | raw :: rest, st, chunk, db, calls => by
    rw [importLoop_cons]
    by_cases hline : pyStrip raw = ""
    · rw [if_pos hline, blank_count_cons_blank raw rest hline,
        nonblank_cons_blank raw rest hline]
      obtain ⟨i1, i2⟩ := importLoop_counts h cs dedup rest
        { st with stats := { st.stats with empty_lines := st.stats.empty_lines + 1 } }
        chunk db calls
      constructor
      · refine i1.trans ?_
        show st.stats.empty_lines + 1 + blank_count rest
          = st.stats.empty_lines + (blank_count rest + 1)
        omega
      · exact i2
    · rw [if_neg hline]
      by_cases hfull : cs ≤ (chunk ++ [pyStrip raw]).length
      · rw [if_pos hfull, blank_count_cons_nonblank raw rest hline,
          nonblank_cons_nonblank raw rest hline]
        obtain ⟨i1, i2⟩ := importLoop_counts h cs dedup rest
          (flushChunk h cs dedup (chunk ++ [pyStrip raw])
            { st with stats := { st.stats with total_lines := st.stats.total_lines + 1 } }
            db calls).1
          []
          (flushChunk h cs dedup (chunk ++ [pyStrip raw])
            { st with stats := { st.stats with total_lines := st.stats.total_lines + 1 } }
            db calls).2.1
          (flushChunk h cs dedup (chunk ++ [pyStrip raw])
            { st with stats := { st.stats with total_lines := st.stats.total_lines + 1 } }
            db calls).2.2
        obtain ⟨e1, e2, _, _⟩ := flushChunk_stats h cs dedup (chunk ++ [pyStrip raw])
          { st with stats := { st.stats with total_lines := st.stats.total_lines + 1 } }
          db calls
        constructor
        · rw [i1, e2]
        · rw [i2, e1]
          show st.stats.total_lines + 1 + (nonblank_lines rest).length
            = st.stats.total_lines + ((nonblank_lines rest).length + 1)
          omega
      · rw [if_neg hfull]
        rw [blank_count_cons_nonblank raw rest hline,
          nonblank_cons_nonblank raw rest hline]
        obtain ⟨i1, i2⟩ := importLoop_counts h cs dedup rest
          { st with stats := { st.stats with total_lines := st.stats.total_lines + 1 } }
          (chunk ++ [pyStrip raw]) db calls
        constructor
        · exact i1
        · refine i2.trans ?_
          show st.stats.total_lines + 1 + (nonblank_lines rest).length
            = st.stats.total_lines + ((nonblank_lines rest).length + 1)
          omega

/-- Without deduplication the loop never touches `duplicates`. -/
theorem importLoop_nodedup (h : String → String) (cs : Nat) :
    ∀ (lines : List String) (st : ImporterState) (chunk db : List String)
      (calls : List (List String)),
      (importLoop h cs false lines st chunk db calls).1.stats.duplicates
        = st.stats.duplicates
  | [], st, chunk, db, calls => by
    obtain ⟨_, _, _, e4⟩ := flushChunk_stats h cs false chunk st db calls
    rw [importLoop_nil]
    exact e4 rfl
  | raw :: rest, st, chunk, db, calls => by
    rw [importLoop_cons]
    by_cases hline : pyStrip raw = ""
    · rw [if_pos hline]
      exact importLoop_nodedup h cs rest _ chunk db calls
    · rw [if_neg hline]
      by_cases hfull : cs ≤ (chunk ++ [pyStrip raw]).length
      · rw [if_pos hfull]
        obtain ⟨_, _, _, e4⟩ := flushChunk_stats h cs false (chunk ++ [pyStrip raw])
          { st with stats := { st.stats with total_lines := st.stats.total_lines + 1 } }
          db calls
        exact (importLoop_nodedup h cs rest _ [] _ _).trans (e4 rfl)
      · rw [if_neg hfull]
        exact importLoop_nodedup h cs rest _ (chunk ++ [pyStrip raw]) db calls

/-- Every record of every call the loop makes is either an in-flight record
or a stripped non-blank line of the remaining source. -/
theorem importLoop_calls_mem (h : String → String) (cs : Nat) (dedup : Bool) :
    ∀ (lines : List String) (st : ImporterState) (chunk db : List String)
      (calls : List (List String)),
      ∀ c ∈ (importLoop h cs dedup lines st chunk db calls).2.2,
        c ∈ calls ∨ ∀ r ∈ c, r ∈ chunk ∨ r ∈ nonblank_lines lines
  | [], st, chunk, db, calls => by
    intro c hc
    rw [importLoop_nil] at hc
    rcases flushChunk_calls h cs dedup chunk st db calls c hc with h1 | h1
    · exact Or.inl h1
    · exact Or.inr (fun r hr => Or.inl (h1 r hr))
  | raw :: rest, st, chunk, db, calls => by
    intro c hc
    rw [importLoop_cons] at hc
    by_cases hline : pyStrip raw = ""
    · rw [if_pos hline] at hc
      rcases importLoop_calls_mem h cs dedup rest _ chunk db calls c hc with h1 | h1
      · exact Or.inl h1
      · refine Or.inr (fun r hr => ?_)
        rcases h1 r hr with h2 | h2
        · exact Or.inl h2
        · right
          rw [nonblank_cons_blank raw rest hline]
          exact h2
    · rw [if_neg hline] at hc
      by_cases hfull : cs ≤ (chunk ++ [pyStrip raw]).length
      · rw [if_pos hfull] at hc
        rcases importLoop_calls_mem h cs dedup rest _ [] _ _ c hc with h1 | h1
        · rcases flushChunk_calls h cs dedup (chunk ++ [pyStrip raw]) _ db calls c h1
            with h2 | h2
          · exact Or.inl h2
          · refine Or.inr (fun r hr => ?_)
            rcases List.mem_append.mp (h2 r hr) with h3 | h3
            · exact Or.inl h3
            · right
              rw [nonblank_cons_nonblank raw rest hline]
              exact List.mem_cons.mpr (Or.inl (List.mem_singleton.mp h3))
        · refine Or.inr (fun r hr => ?_)
          rcases h1 r hr with h2 | h2
          · exact absurd h2 (List.not_mem_nil r)
          · right
            rw [nonblank_cons_nonblank raw rest hline]
            exact List.mem_cons_of_mem _ h2
      · rw [if_neg hfull] at hc
        rcases importLoop_calls_mem h cs dedup rest _ (chunk ++ [pyStrip raw]) db calls
          c hc with h1 | h1
        · exact Or.inl h1
        · refine Or.inr (fun r hr => ?_)
          rcases h1 r hr with h2 | h2
          · rcases List.mem_append.mp h2 with h3 | h3
            · exact Or.inl h3
            · right
              rw [nonblank_cons_nonblank raw rest hline]
              exact List.mem_cons.mpr (Or.inl (List.mem_singleton.mp h3))
          · right
            rw [nonblank_cons_nonblank raw rest hline]
            exact List.mem_cons_of_mem _ h2

/-- A deduplicated run over records whose hashes are pairwise distinct and
disjoint from the seen set keeps everything: no duplicates are counted,
`imported` grows by the in-flight chunk plus every non-blank line, and the
store receives them all in order. -/
theorem importLoop_unique (h : String → String) (cs : Nat) (hcs : 0 < cs) :
    ∀ (lines : List String) (st : ImporterState) (chunk db : List String)
      (calls : List (List String)),
      ((chunk ++ nonblank_lines lines).map h).Nodup →
      (∀ x ∈ chunk ++ nonblank_lines lines, h x ∉ st.seen_hashes) →
      (importLoop h cs true lines st chunk db calls).1.stats.duplicates
          = st.stats.duplicates ∧
      (importLoop h cs true lines st chunk db calls).1.stats.imported
          = st.stats.imported + chunk.length + (nonblank_lines lines).length ∧
      (importLoop h cs true lines st chunk db calls).2.1
          = db ++ chunk ++ nonblank_lines lines
  | [], st, chunk, db, calls => by
    intro hnd hdis
    rw [importLoop_nil]
    have hnd' : (chunk.map h).Nodup := by simpa [nonblank_lines] using hnd
    have hdis' : ∀ x ∈ chunk, h x ∉ st.seen_hashes := fun x hx =>
      hdis x (by simpa [nonblank_lines] using hx)
    rw [flushChunk_unique h cs hcs chunk st db calls hnd' hdis']
    refine ⟨rfl, ?_, ?_⟩
    · simp [nonblank_lines]
    · simp [nonblank_lines]
  | raw :: rest, st, chunk, db, calls => by
    intro hnd hdis
    rw [importLoop_cons]
    by_cases hline : pyStrip raw = ""
    · rw [if_pos hline, nonblank_cons_blank raw rest hline]
      rw [nonblank_cons_blank raw rest hline] at hnd hdis
      obtain ⟨d1, d2, d3⟩ := importLoop_unique h cs hcs rest
        { st with stats := { st.stats with empty_lines := st.stats.empty_lines + 1 } }
        chunk db calls hnd hdis
      exact ⟨d1, d2, d3⟩
    · rw [if_neg hline, nonblank_cons_nonblank raw rest hline]
      rw [nonblank_cons_nonblank raw rest hline] at hnd hdis
      have hr : (chunk ++ [pyStrip raw]) ++ nonblank_lines rest
          = chunk ++ pyStrip raw :: nonblank_lines rest := by simp
      have hndAll : (((chunk ++ [pyStrip raw]) ++ nonblank_lines rest).map h).Nodup := by
        rw [hr]
        exact hnd
      have hdisAll : ∀ x ∈ (chunk ++ [pyStrip raw]) ++ nonblank_lines rest,
          h x ∉ st.seen_hashes := fun x hx => hdis x (hr ▸ hx)
      rw [List.map_append, List.nodup_append] at hndAll
      obtain ⟨hnd1, hnd2, hdisj⟩ := hndAll
      have hnd1' : ((chunk ++ [pyStrip raw]).map h).Nodup := hnd1
      have hnd2' : ((nonblank_lines rest).map h).Nodup := hnd2
      by_cases hfull : cs ≤ (chunk ++ [pyStrip raw]).length
      · rw [if_pos hfull]
        have hdis1 : ∀ x ∈ chunk ++ [pyStrip raw],
            h x ∉ ({ st with stats := { st.stats with
                total_lines := st.stats.total_lines + 1 } } : ImporterState).seen_hashes :=
          fun x hx => hdisAll x (List.mem_append_left _ hx)
        rw [flushChunk_unique h cs hcs (chunk ++ [pyStrip raw]) _ db calls hnd1' hdis1]
        have hch : ¬(chunk ++ [pyStrip raw] = []) := by simp
        rw [if_neg hch]
        obtain ⟨d1, d2, d3⟩ := importLoop_unique h cs hcs rest
          { seen_hashes := ((chunk ++ [pyStrip raw]).map h).reverse ++ st.seen_hashes,
            stats := { st.stats with
              total_lines := st.stats.total_lines + 1,
              imported := st.stats.imported + (chunk ++ [pyStrip raw]).length } }
          [] (db ++ (chunk ++ [pyStrip raw])) (calls ++ [chunk ++ [pyStrip raw]])
          (by simpa using hnd2')
          (by
            intro x hx
            simp only [List.nil_append] at hx
            simp only [List.mem_append, List.mem_reverse, not_or]
            refine ⟨fun hmem => ?_, hdisAll x (List.mem_append_right _ hx)⟩
            exact hdisj hmem (List.mem_map_of_mem h hx)
            )
        refine ⟨d1, ?_, ?_⟩
        · refine d2.trans ?_
          show st.stats.imported + (chunk ++ [pyStrip raw]).length
              + List.length ([] : List String) + (nonblank_lines rest).length
            = st.stats.imported + chunk.length + ((nonblank_lines rest).length + 1)
          simp only [List.length_append, List.length_cons, List.length_nil]
          omega
        · refine d3.trans ?_
          simp
      · rw [if_neg hfull]
        obtain ⟨d1, d2, d3⟩ := importLoop_unique h cs hcs rest
          { st with stats := { st.stats with total_lines := st.stats.total_lines + 1 } }
          (chunk ++ [pyStrip raw]) db calls
          (by rw [hr]; exact hnd) (fun x hx => hdisAll x hx)
        refine ⟨d1, ?_, ?_⟩
        · refine d2.trans ?_
          show st.stats.imported + (chunk ++ [pyStrip raw]).length
              + (nonblank_lines rest).length
            = st.stats.imported + chunk.length + ((nonblank_lines rest).length + 1)
          simp only [List.length_append, List.length_cons, List.length_nil]
          omega
        · refine d3.trans ?_
          simp

/-- C10: for every importer whose statistics balance at entry — as a freshly
constructed importer's do, and as they continue to do across calls that
complete without error (the executions modelled here) — `import_file`
returns statistics with total_lines = imported + duplicates; each blank line
is counted solely in `empty_lines`; each non-blank line solely in
`total_lines`; every record submitted to the store is a stripped non-blank
line; and `duplicates` grows only in deduplicated runs. -/
theorem import_file_stats_balance (h : String → String) (cs : Nat) (dedup : Bool)
    (lines : List String) (st : ImporterState) (db : List String)
    (hbal : st.stats.total_lines = st.stats.imported + st.stats.duplicates) :
    (LogImporter.import_file h cs dedup lines st db).1.stats.total_lines
        = (LogImporter.import_file h cs dedup lines st db).1.stats.imported
          + (LogImporter.import_file h cs dedup lines st db).1.stats.duplicates ∧
    (LogImporter.import_file h cs dedup lines st db).1.stats.empty_lines
        = st.stats.empty_lines + blank_count lines ∧
    (LogImporter.import_file h cs dedup lines st db).1.stats.total_lines
        = st.stats.total_lines + (nonblank_lines lines).length ∧
    (∀ c ∈ (LogImporter.import_file h cs dedup lines st db).2.2,
      ∀ r ∈ c, r ∈ nonblank_lines lines) ∧
    (dedup = false →
      (LogImporter.import_file h cs dedup lines st db).1.stats.duplicates
        = st.stats.duplicates) := by
  refine ⟨importLoop_balance h cs dedup lines st [] db [] hbal, ?_, ?_, ?_, ?_⟩
  · exact (importLoop_counts h cs dedup lines st [] db []).1
  · exact (importLoop_counts h cs dedup lines st [] db []).2
  · intro c hc r hr
    rcases importLoop_calls_mem h cs dedup lines st [] db [] c hc with h1 | h1
    · exact absurd h1 (List.not_mem_nil c)
    · rcases h1 r hr with h2 | h2
      · exact absurd h2 (List.not_mem_nil r)
      · exact h2
  · intro hded
    subst hded
    exact importLoop_nodedup h cs lines st [] db []

/-- Witness for `import_file_stats_balance`: a fresh importer over a source
with one blank line and one repeated line balances its counters. -/
theorem import_file_stats_balance_witness :
    LogImporter.init.stats.total_lines
        = LogImporter.init.stats.imported + LogImporter.init.stats.duplicates ∧
    (LogImporter.import_file (fun s => s) 2 true ["a", " ", "b", "a", "c"]
        LogImporter.init []).1.stats.total_lines
      = (LogImporter.import_file (fun s => s) 2 true ["a", " ", "b", "a", "c"]
          LogImporter.init []).1.stats.imported
        + (LogImporter.import_file (fun s => s) 2 true ["a", " ", "b", "a", "c"]
            LogImporter.init []).1.stats.duplicates :=
  ⟨rfl, (import_file_stats_balance (fun s => s) 2 true ["a", " ", "b", "a", "c"]
      LogImporter.init [] rfl).1⟩

/-- C5: a successful Import of hash-distinct non-blank lines with batch size
k, N not a multiple of k, inserts all N records — the final short batch is
not dropped; concretely, 25 distinct lines with batch size 10 give
imported 25, duplicates 0, in exactly 3 store-insert calls of sizes
10, 10 and 5. -/
theorem import_partial_batch_kept (h : String → String) (k : Nat)
    (lines db : List String) (hk : 0 < k)
    (hnd : ((nonblank_lines lines).map h).Nodup)
    (_hmod : (nonblank_lines lines).length % k ≠ 0) :
    ((LogImporter.import_file h k true lines LogImporter.init db).2.1
        = db ++ nonblank_lines lines ∧
     (LogImporter.import_file h k true lines LogImporter.init db).1.stats.imported
        = (nonblank_lines lines).length ∧
     (LogImporter.import_file h k true lines LogImporter.init db).1.stats.duplicates
        = 0) ∧
    ((LogImporter.import_file (fun s => s) 10 true demo25
        LogImporter.init []).1.stats.imported = 25 ∧
     (LogImporter.import_file (fun s => s) 10 true demo25
        LogImporter.init []).1.stats.duplicates = 0 ∧
     (LogImporter.import_file (fun s => s) 10 true demo25
        LogImporter.init []).2.2.map List.length = [10, 10, 5] ∧
     (nonblank_lines demo25).length = 25 ∧ 25 % 10 ≠ 0) := by
  obtain ⟨d1, d2, d3⟩ := importLoop_unique h k hk lines LogImporter.init [] db []
    (by simpa using hnd) (by simp [LogImporter.init])
  exact ⟨⟨d3.trans (by simp), d2.trans (by simp [LogImporter.init]), d1⟩,
    by decide, by decide, by decide, by decide, by decide⟩

/-- Witness for `import_partial_batch_kept`: three distinct lines with batch
size two — the final batch of one record is kept. -/
theorem import_partial_batch_kept_witness :
    0 < 2 ∧
    (LogImporter.import_file (fun s => s) 2 true ["a", "b", "c"]
        LogImporter.init ["x"]).2.1
      = ["x"] ++ nonblank_lines ["a", "b", "c"] ∧
    (LogImporter.import_file (fun s => s) 2 true ["a", "b", "c"]
        LogImporter.init ["x"]).1.stats.imported
      = (nonblank_lines ["a", "b", "c"]).length :=
  ⟨by decide,
   (import_partial_batch_kept (fun s => s) 2 ["a", "b", "c"] ["x"] (by decide)
      (by decide) (by decide)).1.1,
   (import_partial_batch_kept (fun s => s) 2 ["a", "b", "c"] ["x"] (by decide)
      (by decide) (by decide)).1.2.1⟩

/-- Counterexample to C1 as stated: the seen-hash set is not freed when a
run ends. On the same importer object, a second `import_file` call over the
identical one-line source adds nothing to the store — the store still holds
one copy, the record is classified as a duplicate, and the claimed full
second copy does not appear. -/
theorem dedup_not_run_scoped_cx :
    (LogImporter.import_file (fun s => s) 10 true ["a"]
        LogImporter.init []).2.1 = ["a"] ∧
    (LogImporter.import_file (fun s => s) 10 true ["a"]
        (LogImporter.import_file (fun s => s) 10 true ["a"] LogImporter.init []).1
        (LogImporter.import_file (fun s => s) 10 true ["a"]
          LogImporter.init []).2.1).2.1
      = ["a"] ∧
    (LogImporter.import_file (fun s => s) 10 true ["a"]
        (LogImporter.import_file (fun s => s) 10 true ["a"] LogImporter.init []).1
        (LogImporter.import_file (fun s => s) 10 true ["a"]
          LogImporter.init []).2.1).1.stats.duplicates = 1 ∧
    ¬((LogImporter.import_file (fun s => s) 10 true ["a"]
        (LogImporter.import_file (fun s => s) 10 true ["a"] LogImporter.init []).1
        (LogImporter.import_file (fun s => s) 10 true ["a"]
          LogImporter.init []).2.1).2.1
      = ["a", "a"]) := by decide

/-- C1 amended: the Deduplicator's seen-hash set is scoped to the LogImporter
instance — created at construction and never freed by `import_file` — so a
second Import call over the identical source adds a full second copy of
every record, with none classified as duplicates, exactly when it runs on a
fresh Importer instance (as the application does, constructing a new
LogImporter per upload). -/
theorem dedup_instance_scoped (h : String → String) (cs : Nat) (lines db : List String)
    (hcs : 0 < cs) (hnd : ((nonblank_lines lines).map h).Nodup) :
    (LogImporter.import_file h cs true lines LogImporter.init db).2.1
        = db ++ nonblank_lines lines ∧
    (LogImporter.import_file h cs true lines LogImporter.init
        (LogImporter.import_file h cs true lines LogImporter.init db).2.1).2.1
      = db ++ nonblank_lines lines ++ nonblank_lines lines ∧
    (LogImporter.import_file h cs true lines LogImporter.init
        (LogImporter.import_file h cs true lines LogImporter.init db).2.1).1.stats.duplicates
      = 0 := by
  obtain ⟨d1, d2, d3⟩ := importLoop_unique h cs hcs lines LogImporter.init [] db []
    (by simpa using hnd) (by simp [LogImporter.init])
  obtain ⟨e1, e2, e3⟩ := importLoop_unique h cs hcs lines LogImporter.init []
    (LogImporter.import_file h cs true lines LogImporter.init db).2.1 []
    (by simpa using hnd) (by simp [LogImporter.init])
  have hfirst : (LogImporter.import_file h cs true lines LogImporter.init db).2.1
      = db ++ nonblank_lines lines := d3.trans (by simp)
  refine ⟨hfirst, ?_, e1⟩
  refine e3.trans ?_
  rw [hfirst]
  simp

/-- Witness for `dedup_instance_scoped`: two distinct lines, imported twice
through two fresh importer instances, appear twice in the store. -/
theorem dedup_instance_scoped_witness :
    0 < 10 ∧
    (LogImporter.import_file (fun s => s) 10 true ["a", "b"] LogImporter.init
        (LogImporter.import_file (fun s => s) 10 true ["a", "b"]
          LogImporter.init []).2.1).2.1
      = [] ++ nonblank_lines ["a", "b"] ++ nonblank_lines ["a", "b"] :=
  ⟨by decide,
   (dedup_instance_scoped (fun s => s) 10 ["a", "b"] [] (by decide) (by decide)).2.1⟩
